import Mathlib

/-!
Shallow embedding of the authority-certificate lifecycle core of dubbo-admin's
CA server:
  * the Kubernetes client (`GetAuthorityCert`, `UpdateAuthorityCert`,
    `UpdateAuthorityPublicKey`) from `ca/pkg/k8s/client.go`, modelled over an
    explicit store state plus fault injection for the Kubernetes API calls
    (an API error is the only nondeterminism in that code);
  * the server lifecycle (`RefreshAuthorityCert`, `ScheduleRefreshAuthorityCert`,
    the TLS `GetCertificate` callback) from `ca/pkg/security/server.go`.

The cryptographic collaborators (package `ca/pkg/cert`: `IsValid`,
`NeedRefresh`, `GenerateAuthorityCert`) are external to the analysed core and
are modelled as oracle parameters; `NeedRefresh` and `GenerateAuthorityCert`
take an iteration index because their results depend on wall-clock time and on
fresh randomness.  Every kube-client function also returns the list of
Kubernetes API calls it issued, so that "is called / is not called" properties
can be stated about the trace.
-/

namespace DubboAdmin

/-- A certificate record as `server.go` uses it: the PEM of the certificate
and the PEM of its private key (the parsed `x509` fields are never inspected
by the analysed code, only the PEM strings are compared and stored). -/
structure Cert where
  CertPem : String
  PriPem : String
deriving DecidableEq, Repr

/-- The `dubbo-ca-secret` Kubernetes secret: data keys `cert.pem` and `pri.pem`. -/
structure Secret where
  certPem : String
  priPem : String
deriving DecidableEq, Repr

/-- The observable Kubernetes cluster state touched by the client:
per-namespace `dubbo-ca-secret` secrets, per-namespace `dubbo-ca-cert`
config maps (field `ca.crt`), and the namespace list. -/
structure KubeState where
  secrets : String → Option Secret
  configMaps : String → Option String
  namespaces : List String

/-- Fault injection for the Kubernetes API: which calls return an error.
A `Get` error is identified with absence of the record (`Option.none` in
`KubeState`), which is how the Go code itself interprets it. -/
structure ApiFaults where
  listFails : Bool
  secretCreateFails : String → Bool
  secretUpdateFails : String → Bool
  cmCreateFails : String → Bool
  cmUpdateFails : String → Bool

/-- The fault-free environment: every Kubernetes API call succeeds. -/
def noFaults : ApiFaults :=
  ⟨false, fun _ => false, fun _ => false, fun _ => false, fun _ => false⟩

/-- One Kubernetes API call issued by the client, recorded in traces. -/
inductive KubeCall where
  | getSecret (ns : String)
  | createSecret (ns : String) (certPem priPem : String)
  | updateSecret (ns : String) (certPem priPem : String)
  | getConfigMap (ns : String)
  | createConfigMap (ns : String) (data : String)
  | updateConfigMap (ns : String) (data : String)
deriving DecidableEq, Repr

/-- Whether a call touches the `dubbo-ca-secret` secret (as opposed to the
trust config maps). -/
def KubeCall.touchesSecret : KubeCall → Bool
  | .getSecret _ => true
  | .createSecret _ _ _ => true
  | .updateSecret _ _ _ => true
  | _ => false

/-- `ClientImpl.GetAuthorityCert`: fetch `dubbo-ca-secret` in the namespace;
on a `Get` error (record absent) client-go hands back a zero-valued secret,
whose nil data map yields `""` for both keys, and the error is only logged. -/
def GetAuthorityCert (st : KubeState) (ns : String) : String × String :=
  match st.secrets ns with
  | none => ("", "")
  | some s => (s.certPem, s.priPem)

/-- Store update helper: write the secret of one namespace. -/
def setSecret (st : KubeState) (ns : String) (s : Secret) : KubeState :=
  { st with secrets := fun n => if n = ns then some s else st.secrets n }

/-- Store update helper: write the `ca.crt` config-map entry of one namespace. -/
def setConfigMap (st : KubeState) (ns : String) (d : String) : KubeState :=
  { st with configMaps := fun n => if n = ns then some d else st.configMaps n }

/-- `ClientImpl.UpdateAuthorityCert`: get the secret; if the get fails the
code builds the new secret locally and issues a `Create` (failure only
logged) — the subsequent identity check then compares the local object to the
new content, finds them equal, and returns without an `Update`.  If the
fetched secret already carries the new cert and key PEMs the function returns
without writing; otherwise it overwrites the data and issues an `Update`
(failure only logged). -/
def UpdateAuthorityCert (f : ApiFaults) (st : KubeState) (cert pri ns : String) :
    KubeState × List KubeCall :=
  match st.secrets ns with
  | none =>
      let s : Secret := ⟨cert, pri⟩
      let st1 := if f.secretCreateFails ns then st else setSecret st ns s
      (st1, [.getSecret ns, .createSecret ns cert pri])
  | some s =>
      if s.certPem = cert ∧ s.priPem = pri then
        (st, [.getSecret ns])
      else
        let st1 := if f.secretUpdateFails ns then st else setSecret st ns ⟨cert, pri⟩
        (st1, [.getSecret ns, .updateSecret ns cert pri])

/-- The namespace loop of `ClientImpl.UpdateAuthorityPublicKey`.  For each
namespace (skipping `kube-system`): get `dubbo-ca-cert`; on a get error,
create it with the cert — a create error makes the whole function `return
false` at once (remaining namespaces are not visited), a successful create
leaves the local object equal to the cert so the loop continues; if the
fetched content equals the cert the namespace is skipped; otherwise the entry
is overwritten with an `Update` — an update error again makes the whole
function `return false` at once. -/
def updateCAConfigMaps (f : ApiFaults) (cert : String) :
    KubeState → List String → KubeState × List KubeCall × Bool
  | st, [] => (st, [], true)
  | st, n :: rest =>
    if n = "kube-system" then
      updateCAConfigMaps f cert st rest
    else
      match st.configMaps n with
      | none =>
          if f.cmCreateFails n then
            (st, [.getConfigMap n, .createConfigMap n cert], false)
          else
            let r := updateCAConfigMaps f cert (setConfigMap st n cert) rest
            (r.1, .getConfigMap n :: .createConfigMap n cert :: r.2.1, r.2.2)
      | some d =>
          if d = cert then
            let r := updateCAConfigMaps f cert st rest
            (r.1, .getConfigMap n :: r.2.1, r.2.2)
          else if f.cmUpdateFails n then
            (st, [.getConfigMap n, .updateConfigMap n cert], false)
          else
            let r := updateCAConfigMaps f cert (setConfigMap st n cert) rest
            (r.1, .getConfigMap n :: .updateConfigMap n cert :: r.2.1, r.2.2)

/-- `ClientImpl.UpdateAuthorityPublicKey`: list all namespaces (a list error
returns `false` immediately) and run the per-namespace loop. -/
def UpdateAuthorityPublicKey (f : ApiFaults) (st : KubeState) (cert : String) :
    KubeState × List KubeCall × Bool :=
  if f.listFails then (st, [], false)
  else updateCAConfigMaps f cert st st.namespaces

/-- The server options used by the analysed core (`config.Options`):
the CA's own namespace and the authority-cert validity duration. -/
structure Options where
  Namespace : String
  CaValidity : Nat

/-- The fields of `cert.Storage` that `server.go` reads and writes:
the root cert, the active authority cert and the append-only trusted list. -/
structure Storage where
  RootCert : Cert
  AuthorityCert : Cert
  TrustedCert : List Cert
deriving DecidableEq, Repr

/-- Combined in-memory server state and Kubernetes cluster state. -/
structure ServerState where
  storage : Storage
  kube : KubeState

/-- Oracles for the `ca/pkg/cert` collaborators used by `server.go`.
`IsValid` is the bootstrap-time validity check of the in-memory cert;
`NeedRefresh` asks at iteration `i` whether the current authority cert is
nearing expiry; `GenerateAuthorityCert i` is the fresh cert the generator
returns at generation step `i` (step 0 is the bootstrap generation, step
`i + 1` the rotation of loop iteration `i`). -/
structure CryptoEnv where
  IsValid : Cert → Bool
  NeedRefresh : Nat → Cert → Bool
  GenerateAuthorityCert : Nat → Cert

/-- `Server.RefreshAuthorityCert` (bootstrap): if the in-memory authority
cert is valid it is kept and the secret is not touched; otherwise a fresh
authority cert is generated, installed in memory and persisted with
`UpdateAuthorityCert`.  In both branches the resulting cert's PEM is then
broadcast with `UpdateAuthorityPublicKey` and the cert is appended to
`TrustedCert`.  Returns the new state and the Kubernetes call trace. -/
def RefreshAuthorityCert (env : CryptoEnv) (f : ApiFaults) (opts : Options)
    (st : ServerState) : ServerState × List KubeCall :=
  let r :=
    if env.IsValid st.storage.AuthorityCert then (st, ([] : List KubeCall))
    else
      let c := env.GenerateAuthorityCert 0
      let st' : ServerState := { st with storage := { st.storage with AuthorityCert := c } }
      let u := UpdateAuthorityCert f st'.kube c.CertPem c.PriPem opts.Namespace
      ({ st' with kube := u.1 }, u.2)
  let b := UpdateAuthorityPublicKey f r.1.kube r.1.storage.AuthorityCert.CertPem
  ({ r.1 with
      kube := b.1,
      storage := { r.1.storage with
        TrustedCert := r.1.storage.TrustedCert ++ [r.1.storage.AuthorityCert] } },
   r.2 ++ b.2.1)

/-- Observable events of one iteration of the scheduled refresh loop:
the sleep (carrying the interval it sleeps for), Kubernetes calls, and the
non-blocking check of the stop channel at the end of the iteration. -/
inductive Event where
  | sleep (d : Int)
  | stopCheck
  | kube (c : KubeCall)
deriving DecidableEq, Repr

/-- The poll interval of `Server.ScheduleRefreshAuthorityCert`:
`math.Min(math.Floor(float64(CaValidity)/100), 10_000)` milliseconds.
The floor of an exact division is modelled over `ℚ`; for every validity
below `2^53` the `float64` division is correctly rounded and cannot cross an
integer boundary, so its floor agrees with the exact one. -/
def interval (v : Nat) : Int :=
  min (Int.floor ((v : ℚ) / 100)) 10000

/-- One iteration of the body of `ScheduleRefreshAuthorityCert`: sleep for
the interval; if `NeedRefresh` holds for the current authority cert, generate
a replacement, install it in memory (without touching `TrustedCert`),
persist it with `UpdateAuthorityCert` and broadcast it with
`UpdateAuthorityPublicKey`; finally poll the stop channel. -/
def ScheduleIteration (env : CryptoEnv) (f : ApiFaults) (opts : Options)
    (d : Int) (i : Nat) (st : ServerState) : ServerState × List Event :=
  let r :=
    if env.NeedRefresh i st.storage.AuthorityCert then
      let c := env.GenerateAuthorityCert (i + 1)
      let st1 : ServerState := { st with storage := { st.storage with AuthorityCert := c } }
      let u := UpdateAuthorityCert f st1.kube c.CertPem c.PriPem opts.Namespace
      let b := UpdateAuthorityPublicKey f u.1 c.CertPem
      ({ st1 with kube := b.1 }, (u.2 ++ b.2.1).map Event.kube)
    else (st, ([] : List Event))
  (r.1, Event.sleep d :: r.2 ++ [Event.stopCheck])

/-- The `for true` loop of `ScheduleRefreshAuthorityCert`, with explicit fuel
(number of iterations still examined), iteration index `i`, and a schedule
`stop` telling at which iterations a signal is pending on `StopChan` when the
`select` polls it.  Returns the final state, the concatenated event trace and
whether the loop has exited within the examined iterations. -/
def ScheduleLoop (env : CryptoEnv) (f : ApiFaults) (opts : Options)
    (stop : Nat → Bool) (d : Int) :
    Nat → Nat → ServerState → ServerState × List Event × Bool
  | 0, _, st => (st, [], false)
  | fuel + 1, i, st =>
      let r := ScheduleIteration env f opts d i st
      if stop i then (r.1, r.2, true)
      else
        let k := ScheduleLoop env f opts stop d fuel (i + 1) r.1
        (k.1, r.2 ++ k.2.1, k.2.2)

/-- `Server.ScheduleRefreshAuthorityCert`: the interval is computed once,
before the loop starts, and the loop runs from iteration 0. -/
def ScheduleRefreshAuthorityCert (env : CryptoEnv) (f : ApiFaults)
    (opts : Options) (stop : Nat → Bool) (fuel : Nat) (st : ServerState) :
    ServerState × List Event × Bool :=
  ScheduleLoop env f opts stop (interval opts.CaValidity) fuel 0 st

/-- The `GetCertificate` callback installed in `Server.Init`'s `tls.Config`:
`return s.CertStorage.GetServerCert(info.ServerName), nil`.  The resolver
(`cert.Storage.GetServerCert`, an external collaborator) is a parameter; the
callback pairs its result with a `nil` error (modelled as `Option.none`). -/
def GetCertificate (resolver : String → Option Cert) (serverName : String) :
    Option Cert × Option String :=
  (resolver serverName, none)

/-! ### Concrete sample cluster used by the closed theorems -/

/-- A cluster with two workload namespaces and no secret or config map yet. -/
def kube0 : KubeState :=
  { secrets := fun _ => none, configMaps := fun _ => none,
    namespaces := ["default", "mesh"] }

/-- Crypto oracles for the sample runs: the initial in-memory cert is
invalid, every iteration wants a refresh, and generation step `i` yields a
distinct cert. -/
def env0 : CryptoEnv :=
  { IsValid := fun _ => false,
    NeedRefresh := fun _ _ => true,
    GenerateAuthorityCert := fun i => ⟨"CERT" ++ toString i, "PRI" ++ toString i⟩ }

/-- Crypto oracles under which the scheduled loop never needs a refresh. -/
def envNoRef : CryptoEnv := { env0 with NeedRefresh := fun _ _ => false }

/-- Sample options: CA namespace `default`, validity 500000 ms. -/
def opts0 : Options := ⟨"default", 500000⟩

/-- Sample initial server state: empty in-memory certs, empty cluster. -/
def st0 : ServerState :=
  { storage := ⟨⟨"ROOT", "ROOTPRI"⟩, ⟨"", ""⟩, []⟩, kube := kube0 }

/-- Faults where creating the `default` namespace's config map fails. -/
def faultsA : ApiFaults := { noFaults with cmCreateFails := fun n => n = "default" }

/-- Faults where creating the `mesh` namespace's config map fails. -/
def faultsB : ApiFaults := { noFaults with cmCreateFails := fun n => n = "mesh" }

/-- An empty cluster with three workload namespaces, used to exhibit a
broadcast failure in the middle of the namespace iteration. -/
def kube3 : KubeState :=
  { secrets := fun _ => none, configMaps := fun _ => none,
    namespaces := ["default", "mesh", "extra"] }

/-! ### Lemmas about the namespace loop of `UpdateAuthorityPublicKey` -/

/-- The config-map loop never touches secrets or the namespace list. -/
theorem updateCAConfigMaps_frame (f : ApiFaults) (cert : String) (l : List String) :
    ∀ st : KubeState,
      (updateCAConfigMaps f cert st l).1.secrets = st.secrets ∧
      (updateCAConfigMaps f cert st l).1.namespaces = st.namespaces := by
  induction l with
  | nil => intro st; exact ⟨rfl, rfl⟩
  | cons n rest ih =>
      intro st
      by_cases hks : n = "kube-system"
      · simpa [updateCAConfigMaps, hks] using ih st
      · rcases hm : st.configMaps n with _ | d
        · by_cases hc : f.cmCreateFails n
          · simp [updateCAConfigMaps, hks, hm, hc]
          · simpa [updateCAConfigMaps, hks, hm, hc, setConfigMap]
              using ih (setConfigMap st n cert)
        · by_cases he : d = cert
          · simpa [updateCAConfigMaps, hks, hm, he] using ih st
          · by_cases hu : f.cmUpdateFails n
            · simp [updateCAConfigMaps, hks, hm, he, hu]
            · simpa [updateCAConfigMaps, hks, hm, he, hu, setConfigMap]
                using ih (setConfigMap st n cert)

/-- Every call the config-map loop issues is a config-map call. -/
theorem updateCAConfigMaps_calls (f : ApiFaults) (cert : String) (l : List String) :
    ∀ (st : KubeState) (e : KubeCall),
      e ∈ (updateCAConfigMaps f cert st l).2.1 → e.touchesSecret = false := by
  induction l with
  | nil => intro st e h; simp [updateCAConfigMaps] at h
  | cons n rest ih =>
      intro st e h
      by_cases hks : n = "kube-system"
      · exact ih st e (by simpa [updateCAConfigMaps, hks] using h)
      · rcases hm : st.configMaps n with _ | d
        · by_cases hc : f.cmCreateFails n
          · simp [updateCAConfigMaps, hks, hm, hc] at h
            rcases h with h | h <;> simp [h, KubeCall.touchesSecret]
          · simp only [updateCAConfigMaps, if_neg hks, hm, hc, Bool.false_eq_true,
              if_false, List.mem_cons] at h
            rcases h with h | h | h
            · simp [h, KubeCall.touchesSecret]
            · simp [h, KubeCall.touchesSecret]
            · exact ih (setConfigMap st n cert) e h
        · by_cases he : d = cert
          · rcases (by simpa [updateCAConfigMaps, hks, hm, he] using h :
                e = KubeCall.getConfigMap n ∨
                  e ∈ (updateCAConfigMaps f cert st rest).2.1) with h' | h'
            · simp [h', KubeCall.touchesSecret]
            · exact ih st e h'
          · by_cases hu : f.cmUpdateFails n
            · simp [updateCAConfigMaps, hks, hm, he, hu] at h
              rcases h with h | h <;> simp [h, KubeCall.touchesSecret]
            · simp only [updateCAConfigMaps, if_neg hks, hm, if_neg he, hu,
                Bool.false_eq_true, if_false, List.mem_cons] at h
              rcases h with h | h | h
              · simp [h, KubeCall.touchesSecret]
              · simp [h, KubeCall.touchesSecret]
              · exact ih (setConfigMap st n cert) e h

/-- Every write of the config-map loop writes `cert`, so a namespace whose
entry already equals `cert` keeps that entry. -/
theorem updateCAConfigMaps_keeps_cert (f : ApiFaults) (cert : String) (l : List String) :
    ∀ (st : KubeState) (N : String), st.configMaps N = some cert →
      (updateCAConfigMaps f cert st l).1.configMaps N = some cert := by
  induction l with
  | nil => intro st N hN; simpa [updateCAConfigMaps] using hN
  | cons n rest ih =>
      intro st N hN
      by_cases hks : n = "kube-system"
      · simpa [updateCAConfigMaps, hks] using ih st N hN
      · rcases hm : st.configMaps n with _ | d
        · by_cases hc : f.cmCreateFails n
          · simpa [updateCAConfigMaps, hks, hm, hc] using hN
          · have hpres : (setConfigMap st n cert).configMaps N = some cert := by
              by_cases hnN : N = n
              · simp [setConfigMap, hnN]
              · simpa [setConfigMap, hnN] using hN
            simpa [updateCAConfigMaps, hks, hm, hc] using
              ih (setConfigMap st n cert) N hpres
        · by_cases he : d = cert
          · simpa [updateCAConfigMaps, hks, hm, he] using ih st N hN
          · by_cases hu : f.cmUpdateFails n
            · simpa [updateCAConfigMaps, hks, hm, he, hu] using hN
            · have hpres : (setConfigMap st n cert).configMaps N = some cert := by
                by_cases hnN : N = n
                · simp [setConfigMap, hnN]
                · simpa [setConfigMap, hnN] using hN
              simpa [updateCAConfigMaps, hks, hm, he, hu] using
                ih (setConfigMap st n cert) N hpres

/-- A namespace whose entry already equals `cert` receives no create and no
update call from the config-map loop, whatever the other namespaces need. -/
theorem updateCAConfigMaps_no_write_when_equal (f : ApiFaults) (cert : String)
    (l : List String) :
    ∀ (st : KubeState) (N : String), st.configMaps N = some cert →
      ∀ s, KubeCall.createConfigMap N s ∉ (updateCAConfigMaps f cert st l).2.1 ∧
        KubeCall.updateConfigMap N s ∉ (updateCAConfigMaps f cert st l).2.1 := by
  induction l with
  | nil => intro st N hN s; simp [updateCAConfigMaps]
  | cons n rest ih =>
      intro st N hN s
      by_cases hks : n = "kube-system"
      · simpa [updateCAConfigMaps, hks] using ih st N hN s
      · rcases hm : st.configMaps n with _ | d
        · have hnN : N ≠ n := fun h => by rw [← h, hN] at hm; cases hm
          by_cases hc : f.cmCreateFails n
          · simp [updateCAConfigMaps, hks, hm, hc, hnN]
          · have hpres : (setConfigMap st n cert).configMaps N = some cert := by
              simpa [setConfigMap, hnN] using hN
            have hr := ih (setConfigMap st n cert) N hpres s
            simp [updateCAConfigMaps, hks, hm, hc, hnN, hr.1, hr.2]
        · by_cases he : d = cert
          · have hr := ih st N hN s
            simp [updateCAConfigMaps, hks, hm, he, hr.1, hr.2]
          · have hnN : N ≠ n := fun h => by
              rw [← h, hN] at hm
              exact he (Option.some_injective _ hm.symm)
            by_cases hu : f.cmUpdateFails n
            · simp [updateCAConfigMaps, hks, hm, he, hu, hnN]
            · have hpres : (setConfigMap st n cert).configMaps N = some cert := by
                simpa [setConfigMap, hnN] using hN
              have hr := ih (setConfigMap st n cert) N hpres s
              simp [updateCAConfigMaps, hks, hm, he, hu, hnN, hr.1, hr.2]

/-- When the config-map loop finishes without an early `return false`, every
namespace it visited (all but `kube-system`) ends up with its trust record
equal to `cert`. -/
theorem updateCAConfigMaps_success_all_equal (f : ApiFaults) (cert : String)
    (l : List String) :
    ∀ st : KubeState, (updateCAConfigMaps f cert st l).2.2 = true →
      ∀ n ∈ l, n ≠ "kube-system" →
        (updateCAConfigMaps f cert st l).1.configMaps n = some cert := by
  induction l with
  | nil => intro st hok n hn; simp at hn
  | cons m rest ih =>
      intro st hok n hn hnks
      by_cases hks : m = "kube-system"
      · rcases List.mem_cons.mp hn with h | h
        · exact absurd (h ▸ hks) hnks
        · have heq : updateCAConfigMaps f cert st (m :: rest) =
              updateCAConfigMaps f cert st rest := by
            simp [updateCAConfigMaps, hks]
          rw [heq]
          exact ih st (by rwa [heq] at hok) n h hnks
      · rcases hm : st.configMaps m with _ | d
        · by_cases hc : f.cmCreateFails m
          · simp [updateCAConfigMaps, hks, hm, hc] at hok
          · have hok' : (updateCAConfigMaps f cert (setConfigMap st m cert) rest).2.2 = true := by
              simpa [updateCAConfigMaps, hks, hm, hc] using hok
            rcases List.mem_cons.mp hn with h | h
            · subst h
              simpa [updateCAConfigMaps, hks, hm, hc] using
                updateCAConfigMaps_keeps_cert f cert rest (setConfigMap st n cert) n
                  (by simp [setConfigMap])
            · simpa [updateCAConfigMaps, hks, hm, hc] using
                ih (setConfigMap st m cert) hok' n h hnks
        · by_cases he : d = cert
          · have hok' : (updateCAConfigMaps f cert st rest).2.2 = true := by
              simpa [updateCAConfigMaps, hks, hm, he] using hok
            rcases List.mem_cons.mp hn with h | h
            · subst h
              simpa [updateCAConfigMaps, hks, hm, he] using
                updateCAConfigMaps_keeps_cert f cert rest st n (he ▸ hm)
            · simpa [updateCAConfigMaps, hks, hm, he] using ih st hok' n h hnks
          · by_cases hu : f.cmUpdateFails m
            · simp [updateCAConfigMaps, hks, hm, he, hu] at hok
            · have hok' : (updateCAConfigMaps f cert (setConfigMap st m cert) rest).2.2 = true := by
                simpa [updateCAConfigMaps, hks, hm, he, hu] using hok
              rcases List.mem_cons.mp hn with h | h
              · subst h
                simpa [updateCAConfigMaps, hks, hm, he, hu] using
                  updateCAConfigMaps_keeps_cert f cert rest (setConfigMap st n cert) n
                    (by simp [setConfigMap])
              · simpa [updateCAConfigMaps, hks, hm, he, hu] using
                  ih (setConfigMap st m cert) hok' n h hnks

/-- When every visited namespace's trust record already equals `cert`, the
config-map loop only issues `Get` calls, leaves the state untouched and
succeeds. -/
theorem updateCAConfigMaps_all_equal_only_gets (f : ApiFaults) (cert : String)
    (l : List String) :
    ∀ st : KubeState, (∀ n ∈ l, n ≠ "kube-system" → st.configMaps n = some cert) →
      (updateCAConfigMaps f cert st l).1 = st ∧
      (updateCAConfigMaps f cert st l).2.2 = true ∧
      ∀ e ∈ (updateCAConfigMaps f cert st l).2.1, ∃ m, e = KubeCall.getConfigMap m := by
  induction l with
  | nil => intro st _; simp [updateCAConfigMaps]
  | cons m rest ih =>
      intro st hall
      have hrest : ∀ n ∈ rest, n ≠ "kube-system" → st.configMaps n = some cert :=
        fun n hn => hall n (List.mem_cons_of_mem m hn)
      by_cases hks : m = "kube-system"
      · simpa [updateCAConfigMaps, hks] using ih st hrest
      · have hm : st.configMaps m = some cert := hall m (List.mem_cons_self m rest) hks
        have hr := ih st hrest
        refine ⟨by simpa [updateCAConfigMaps, hks, hm] using hr.1,
          by simpa [updateCAConfigMaps, hks, hm] using hr.2.1, ?_⟩
        intro e he
        rcases (by simpa [updateCAConfigMaps, hks, hm] using he :
            e = KubeCall.getConfigMap m ∨ e ∈ (updateCAConfigMaps f cert st rest).2.1)
          with h | h
        · exact ⟨m, h⟩
        · exact hr.2.2 e h

/-! ### Claim theorems about the Kubernetes client -/

/-- C9: for every namespace whose `dubbo-ca-secret` secret does not exist in
the store, `GetAuthorityCert` returns a pair of empty strings rather than
signalling an error to the caller. -/
theorem GetAuthorityCert_absent_empty (st : KubeState) (ns : String)
    (h : st.secrets ns = none) : GetAuthorityCert st ns = ("", "") := by
  simp [GetAuthorityCert, h]

theorem GetAuthorityCert_absent_empty_witness :
    GetAuthorityCert kube0 "mesh" = ("", "") :=
  GetAuthorityCert_absent_empty kube0 "mesh" rfl

/-- C5: `UpdateAuthorityCert` creates the secret record when absent (and
then issues no update); performs no write at all when the existing record's
cert and key PEMs are byte-identical to the new content; and otherwise
overwrites the record with the new content via a single update call. -/
theorem UpdateAuthorityCert_create_skip_overwrite :
    ∀ (f : ApiFaults) (st : KubeState) (cert pri ns : String),
      (st.secrets ns = none →
        (UpdateAuthorityCert f st cert pri ns).2 =
          [KubeCall.getSecret ns, KubeCall.createSecret ns cert pri] ∧
        (f.secretCreateFails ns = false →
          (UpdateAuthorityCert f st cert pri ns).1.secrets ns = some ⟨cert, pri⟩))
      ∧ (st.secrets ns = some ⟨cert, pri⟩ →
          UpdateAuthorityCert f st cert pri ns = (st, [KubeCall.getSecret ns]))
      ∧ (∀ s, st.secrets ns = some s → ¬(s.certPem = cert ∧ s.priPem = pri) →
          (UpdateAuthorityCert f st cert pri ns).2 =
            [KubeCall.getSecret ns, KubeCall.updateSecret ns cert pri] ∧
          (f.secretUpdateFails ns = false →
            (UpdateAuthorityCert f st cert pri ns).1.secrets ns = some ⟨cert, pri⟩)) := by
  intro f st cert pri ns
  refine ⟨fun h => ?_, fun h => ?_, fun s hs hne => ?_⟩
  · constructor
    · simp [UpdateAuthorityCert, h]
    · intro hc; simp [UpdateAuthorityCert, h, hc, setSecret]
  · simp [UpdateAuthorityCert, h]
  · constructor
    · simp [UpdateAuthorityCert, hs, hne]
    · intro hu; simp [UpdateAuthorityCert, hs, hne, hu, setSecret]

theorem UpdateAuthorityCert_create_skip_overwrite_witness :
    ((UpdateAuthorityCert noFaults kube0 "C" "P" "default").2 =
      [KubeCall.getSecret "default", KubeCall.createSecret "default" "C" "P"] ∧
     (noFaults.secretCreateFails "default" = false →
      (UpdateAuthorityCert noFaults kube0 "C" "P" "default").1.secrets "default" =
        some ⟨"C", "P"⟩)) :=
  (UpdateAuthorityCert_create_skip_overwrite noFaults kube0 "C" "P" "default").1 rfl

/-- C2 counterexample: creating the trust config map of namespace `default`
fails, and the call returns `false` having issued no Kubernetes call at all
for the remaining namespace `mesh` — the remaining namespaces are NOT
attempted, contrary to the claim. -/
theorem UpdateAuthorityPublicKey_skips_remaining_cex :
    (UpdateAuthorityPublicKey faultsA kube0 "C").2 =
      ([KubeCall.getConfigMap "default", KubeCall.createConfigMap "default" "C"], false) ∧
    KubeCall.getConfigMap "mesh" ∉ (UpdateAuthorityPublicKey faultsA kube0 "C").2.1 := by
  constructor
  · rfl
  · decide

/-- As long as no early `return false` happens in its first part, the
config-map loop over an appended list is the loop over the first part
followed by the loop over the second part from the resulting state, with the
traces concatenated. -/
theorem updateCAConfigMaps_append (f : ApiFaults) (cert : String) :
    ∀ (l1 l2 : List String) (st : KubeState),
      (updateCAConfigMaps f cert st l1).2.2 = true →
      updateCAConfigMaps f cert st (l1 ++ l2) =
        ((updateCAConfigMaps f cert (updateCAConfigMaps f cert st l1).1 l2).1,
         (updateCAConfigMaps f cert st l1).2.1 ++
           (updateCAConfigMaps f cert (updateCAConfigMaps f cert st l1).1 l2).2.1,
         (updateCAConfigMaps f cert (updateCAConfigMaps f cert st l1).1 l2).2.2) := by
  intro l1
  induction l1 with
  | nil => intro l2 st _; simp [updateCAConfigMaps]
  | cons n rest ih =>
      intro l2 st hok
      by_cases hks : n = "kube-system"
      · have hok' : (updateCAConfigMaps f cert st rest).2.2 = true := by
          simpa [updateCAConfigMaps, hks] using hok
        simpa [updateCAConfigMaps, hks] using ih l2 st hok'
      · rcases hm : st.configMaps n with _ | d
        · by_cases hc : f.cmCreateFails n
          · simp [updateCAConfigMaps, hks, hm, hc] at hok
          · have hok' : (updateCAConfigMaps f cert (setConfigMap st n cert) rest).2.2 = true := by
              simpa [updateCAConfigMaps, hks, hm, hc] using hok
            simpa [updateCAConfigMaps, hks, hm, hc, Prod.ext_iff] using
              ih l2 (setConfigMap st n cert) hok'
        · by_cases he : d = cert
          · have hok' : (updateCAConfigMaps f cert st rest).2.2 = true := by
              simpa [updateCAConfigMaps, hks, hm, he] using hok
            simpa [updateCAConfigMaps, hks, hm, he, Prod.ext_iff] using ih l2 st hok'
          · by_cases hu : f.cmUpdateFails n
            · simp [updateCAConfigMaps, hks, hm, he, hu] at hok
            · have hok' : (updateCAConfigMaps f cert (setConfigMap st n cert) rest).2.2 = true := by
                simpa [updateCAConfigMaps, hks, hm, he, hu] using hok
              simpa [updateCAConfigMaps, hks, hm, he, hu, Prod.ext_iff] using
                ih l2 (setConfigMap st n cert) hok'

/-- C2 (amended): when `UpdateAuthorityPublicKey` encounters a failure
creating or updating the trust record of one namespace — at any position in
the namespace iteration — it returns `false` immediately: the trace is the
calls of the namespaces already processed followed by the failing
namespace's calls, no later namespace is attempted, and the state is what
the already-processed prefix left behind. -/
theorem UpdateAuthorityPublicKey_early_return_on_failure :
    ∀ (f : ApiFaults) (st : KubeState) (cert : String) (pre : List String)
      (n : String) (post : List String),
      st.namespaces = pre ++ n :: post → n ≠ "kube-system" → f.listFails = false →
      (updateCAConfigMaps f cert st pre).2.2 = true →
      ((updateCAConfigMaps f cert st pre).1.configMaps n = none →
        f.cmCreateFails n = true →
        UpdateAuthorityPublicKey f st cert =
          ((updateCAConfigMaps f cert st pre).1,
           (updateCAConfigMaps f cert st pre).2.1 ++
             [KubeCall.getConfigMap n, KubeCall.createConfigMap n cert], false))
      ∧ (∀ d, (updateCAConfigMaps f cert st pre).1.configMaps n = some d → d ≠ cert →
          f.cmUpdateFails n = true →
          UpdateAuthorityPublicKey f st cert =
            ((updateCAConfigMaps f cert st pre).1,
             (updateCAConfigMaps f cert st pre).2.1 ++
               [KubeCall.getConfigMap n, KubeCall.updateConfigMap n cert], false)) := by
  intro f st cert pre n post hns hnks hl hpre
  constructor
  · intro hm hc
    have hstep : updateCAConfigMaps f cert (updateCAConfigMaps f cert st pre).1 (n :: post) =
        ((updateCAConfigMaps f cert st pre).1,
         [KubeCall.getConfigMap n, KubeCall.createConfigMap n cert], false) := by
      simp [updateCAConfigMaps, hnks, hm, hc]
    rw [UpdateAuthorityPublicKey, if_neg (by simp [hl]), hns,
      updateCAConfigMaps_append f cert pre (n :: post) st hpre, hstep]
  · intro d hm hd hu
    have hstep : updateCAConfigMaps f cert (updateCAConfigMaps f cert st pre).1 (n :: post) =
        ((updateCAConfigMaps f cert st pre).1,
         [KubeCall.getConfigMap n, KubeCall.updateConfigMap n cert], false) := by
      simp [updateCAConfigMaps, hnks, hm, hd, hu]
    rw [UpdateAuthorityPublicKey, if_neg (by simp [hl]), hns,
      updateCAConfigMaps_append f cert pre (n :: post) st hpre, hstep]

theorem UpdateAuthorityPublicKey_early_return_on_failure_witness :
    ((updateCAConfigMaps faultsB "C" kube3 ["default"]).1.configMaps "mesh" = none →
      faultsB.cmCreateFails "mesh" = true →
      UpdateAuthorityPublicKey faultsB kube3 "C" =
        ((updateCAConfigMaps faultsB "C" kube3 ["default"]).1,
         (updateCAConfigMaps faultsB "C" kube3 ["default"]).2.1 ++
           [KubeCall.getConfigMap "mesh", KubeCall.createConfigMap "mesh" "C"], false)) ∧
    (∀ d, (updateCAConfigMaps faultsB "C" kube3 ["default"]).1.configMaps "mesh" = some d →
      d ≠ "C" → faultsB.cmUpdateFails "mesh" = true →
      UpdateAuthorityPublicKey faultsB kube3 "C" =
        ((updateCAConfigMaps faultsB "C" kube3 ["default"]).1,
         (updateCAConfigMaps faultsB "C" kube3 ["default"]).2.1 ++
           [KubeCall.getConfigMap "mesh", KubeCall.updateConfigMap "mesh" "C"], false)) :=
  UpdateAuthorityPublicKey_early_return_on_failure faultsB kube3 "C" ["default"] "mesh"
    ["extra"] rfl (by decide) rfl (by decide)

/-- C4: broadcasting the same cert PEM twice is idempotent.  A namespace
whose trust record already equals the cert receives no create and no update
call; and after any first broadcast that returned `true`, a second broadcast
of the same cert issues nothing but `Get` calls. -/
theorem UpdateAuthorityPublicKey_idempotent :
    (∀ (f : ApiFaults) (st : KubeState) (cert N : String),
        st.configMaps N = some cert →
        ∀ s, KubeCall.createConfigMap N s ∉ (UpdateAuthorityPublicKey f st cert).2.1 ∧
          KubeCall.updateConfigMap N s ∉ (UpdateAuthorityPublicKey f st cert).2.1)
    ∧ (∀ (f1 f2 : ApiFaults) (st : KubeState) (cert : String),
        (UpdateAuthorityPublicKey f1 st cert).2.2 = true →
        ∀ e ∈ (UpdateAuthorityPublicKey f2 (UpdateAuthorityPublicKey f1 st cert).1 cert).2.1,
          ∃ m, e = KubeCall.getConfigMap m) := by
  constructor
  · intro f st cert N hN s
    by_cases hl : f.listFails
    · simp [UpdateAuthorityPublicKey, hl]
    · simpa [UpdateAuthorityPublicKey, hl] using
        updateCAConfigMaps_no_write_when_equal f cert st.namespaces st N hN s
  · intro f1 f2 st cert hok e he
    by_cases hl1 : f1.listFails
    · simp [UpdateAuthorityPublicKey, hl1] at hok
    · have hok' : (updateCAConfigMaps f1 cert st st.namespaces).2.2 = true := by
        simpa [UpdateAuthorityPublicKey, hl1] using hok
      have hns : (UpdateAuthorityPublicKey f1 st cert).1.namespaces = st.namespaces := by
        simpa [UpdateAuthorityPublicKey, hl1] using
          (updateCAConfigMaps_frame f1 cert st.namespaces st).2
      have hall : ∀ n ∈ (UpdateAuthorityPublicKey f1 st cert).1.namespaces,
          n ≠ "kube-system" →
          (UpdateAuthorityPublicKey f1 st cert).1.configMaps n = some cert := by
        rw [hns]
        intro n hn hnks
        simpa [UpdateAuthorityPublicKey, hl1] using
          updateCAConfigMaps_success_all_equal f1 cert st.namespaces st hok' n hn hnks
      by_cases hl2 : f2.listFails
      · simp [UpdateAuthorityPublicKey, hl2] at he
      · exact (updateCAConfigMaps_all_equal_only_gets f2 cert
            (UpdateAuthorityPublicKey f1 st cert).1.namespaces
            (UpdateAuthorityPublicKey f1 st cert).1 hall).2.2 e
          (by simpa [UpdateAuthorityPublicKey, hl2] using he)

theorem UpdateAuthorityPublicKey_idempotent_witness :
    ∀ e ∈ (UpdateAuthorityPublicKey noFaults
        (UpdateAuthorityPublicKey noFaults kube0 "C").1 "C").2.1,
      ∃ m, e = KubeCall.getConfigMap m :=
  UpdateAuthorityPublicKey_idempotent.2 noFaults noFaults kube0 "C" (by decide)

/-- C7 counterexample: with a resolver that yields no certificate for the
requested host, the callback installed in `Server.Init` returns neither a
certificate nor a non-nil error — the error component is hard-coded `nil`,
so issuance failure does not surface through a returned error as the claim
states. -/
theorem GetCertificate_nil_error_cex :
    (GetCertificate (fun _ => none) "example.com").1 = none ∧
    (GetCertificate (fun _ => none) "example.com").2 = none :=
  ⟨rfl, rfl⟩

/-- C7 (amended): for every inbound handshake the callback returns exactly
the resolver's certificate for the requested hostname paired with a nil
error; it never returns a non-nil error and never substitutes a fallback
certificate — when issuance fails the peer sees a handshake failure only
because no certificate is produced, not because of a returned error. -/
theorem GetCertificate_resolver_and_nil_error (resolver : String → Option Cert)
    (serverName : String) :
    GetCertificate resolver serverName = (resolver serverName, none) := rfl

/-! ### Claim theorems about the server lifecycle -/

/-- The broadcast touches neither the secrets nor the namespace list, and
issues no secret-related Kubernetes call. -/
theorem UpdateAuthorityPublicKey_frame (f : ApiFaults) (st : KubeState) (cert : String) :
    (UpdateAuthorityPublicKey f st cert).1.secrets = st.secrets ∧
    (UpdateAuthorityPublicKey f st cert).1.namespaces = st.namespaces ∧
    ∀ e ∈ (UpdateAuthorityPublicKey f st cert).2.1, e.touchesSecret = false := by
  by_cases hl : f.listFails
  · simp [UpdateAuthorityPublicKey, hl]
  · refine ⟨?_, ?_, ?_⟩
    · simpa [UpdateAuthorityPublicKey, hl] using
        (updateCAConfigMaps_frame f cert st.namespaces st).1
    · simpa [UpdateAuthorityPublicKey, hl] using
        (updateCAConfigMaps_frame f cert st.namespaces st).2
    · intro e he
      exact updateCAConfigMaps_calls f cert st.namespaces st e
        (by simpa [UpdateAuthorityPublicKey, hl] using he)

/-- Fault-free, `UpdateAuthorityCert` always leaves the namespace's secret
holding exactly the new cert and key PEMs. -/
theorem UpdateAuthorityCert_persists (f : ApiFaults) (st : KubeState)
    (cert pri ns : String) (hc : f.secretCreateFails ns = false)
    (hu : f.secretUpdateFails ns = false) :
    (UpdateAuthorityCert f st cert pri ns).1.secrets ns = some ⟨cert, pri⟩ := by
  rcases hm : st.secrets ns with _ | s
  · simp [UpdateAuthorityCert, hm, hc, setSecret]
  · by_cases he : s.certPem = cert ∧ s.priPem = pri
    · cases s
      simp only at he
      simp [UpdateAuthorityCert, hm, he, he.1, he.2]
    · simp [UpdateAuthorityCert, hm, he, hu, setSecret]

/-- C3: at bootstrap, a valid in-memory authority cert is kept as-is and the
secret record is untouched (no secret call is issued); an invalid one is
replaced by the freshly generated cert, which is installed in memory and
(fault-free) persisted to the namespace's secret record. -/
theorem RefreshAuthorityCert_bootstrap :
    ∀ (env : CryptoEnv) (f : ApiFaults) (opts : Options) (st : ServerState),
      (env.IsValid st.storage.AuthorityCert = true →
        (RefreshAuthorityCert env f opts st).1.storage.AuthorityCert =
          st.storage.AuthorityCert ∧
        (RefreshAuthorityCert env f opts st).1.kube.secrets = st.kube.secrets ∧
        ∀ e ∈ (RefreshAuthorityCert env f opts st).2, e.touchesSecret = false)
      ∧ (env.IsValid st.storage.AuthorityCert = false →
        (RefreshAuthorityCert env f opts st).1.storage.AuthorityCert =
          env.GenerateAuthorityCert 0 ∧
        (f.secretCreateFails opts.Namespace = false →
         f.secretUpdateFails opts.Namespace = false →
         (RefreshAuthorityCert env f opts st).1.kube.secrets opts.Namespace =
           some ⟨(env.GenerateAuthorityCert 0).CertPem,
                 (env.GenerateAuthorityCert 0).PriPem⟩)) := by
  intro env f opts st
  constructor
  · intro hv
    refine ⟨by simp [RefreshAuthorityCert, hv], ?_, ?_⟩
    · simpa [RefreshAuthorityCert, hv] using
        (UpdateAuthorityPublicKey_frame f st.kube st.storage.AuthorityCert.CertPem).1
    · intro e he
      exact (UpdateAuthorityPublicKey_frame f st.kube st.storage.AuthorityCert.CertPem).2.2 e
        (by simpa [RefreshAuthorityCert, hv] using he)
  · intro hv
    refine ⟨by simp [RefreshAuthorityCert, hv], fun hc hu => ?_⟩
    have hper := UpdateAuthorityCert_persists f st.kube
      (env.GenerateAuthorityCert 0).CertPem (env.GenerateAuthorityCert 0).PriPem
      opts.Namespace hc hu
    have hfr := (UpdateAuthorityPublicKey_frame f
      (UpdateAuthorityCert f st.kube (env.GenerateAuthorityCert 0).CertPem
        (env.GenerateAuthorityCert 0).PriPem opts.Namespace).1
      (env.GenerateAuthorityCert 0).CertPem).1
    simp only [RefreshAuthorityCert, hv, Bool.false_eq_true, if_false]
    simpa [hfr] using hper

theorem RefreshAuthorityCert_bootstrap_witness :
    (RefreshAuthorityCert env0 noFaults opts0 st0).1.storage.AuthorityCert =
      env0.GenerateAuthorityCert 0 ∧
    (noFaults.secretCreateFails opts0.Namespace = false →
     noFaults.secretUpdateFails opts0.Namespace = false →
     (RefreshAuthorityCert env0 noFaults opts0 st0).1.kube.secrets opts0.Namespace =
       some ⟨(env0.GenerateAuthorityCert 0).CertPem,
             (env0.GenerateAuthorityCert 0).PriPem⟩) :=
  (RefreshAuthorityCert_bootstrap env0 noFaults opts0 st0).2 rfl

/-- C10: in an iteration of the scheduled loop where `NeedRefresh` is false,
the server and cluster state are left completely unchanged and the only
events are the sleep and the stop-channel poll — no Kubernetes call at all. -/
theorem ScheduleIteration_no_refresh_frame (env : CryptoEnv) (f : ApiFaults)
    (opts : Options) (d : Int) (i : Nat) (st : ServerState)
    (h : env.NeedRefresh i st.storage.AuthorityCert = false) :
    ScheduleIteration env f opts d i st = (st, [Event.sleep d, Event.stopCheck]) := by
  simp [ScheduleIteration, h]

theorem ScheduleIteration_no_refresh_frame_witness :
    ScheduleIteration envNoRef noFaults opts0 5000 0 st0 =
      (st0, [Event.sleep 5000, Event.stopCheck]) :=
  ScheduleIteration_no_refresh_frame envNoRef noFaults opts0 5000 0 st0 rfl

/-- C1 (code bug): bootstrap appends the active authority cert to the
trusted set, but the scheduled rotation replaces `AuthorityCert` without
appending the replacement: after one rotation the active authority cert is
no longer a member of `TrustedCert`, which is left unchanged. -/
theorem rotation_leaves_authority_cert_untrusted :
    ((RefreshAuthorityCert env0 noFaults opts0 st0).1.storage.AuthorityCert ∈
      (RefreshAuthorityCert env0 noFaults opts0 st0).1.storage.TrustedCert) ∧
    ((ScheduleIteration env0 noFaults opts0 5000 0
        (RefreshAuthorityCert env0 noFaults opts0 st0).1).1.storage.AuthorityCert ∉
      (ScheduleIteration env0 noFaults opts0 5000 0
        (RefreshAuthorityCert env0 noFaults opts0 st0).1).1.storage.TrustedCert) ∧
    ((ScheduleIteration env0 noFaults opts0 5000 0
        (RefreshAuthorityCert env0 noFaults opts0 st0).1).1.storage.TrustedCert =
      (RefreshAuthorityCert env0 noFaults opts0 st0).1.storage.TrustedCert) :=
  ⟨by decide, by decide, by decide⟩

/-- A sleep event of one loop iteration always carries the interval the loop
was started with. -/
theorem ScheduleIteration_sleep_eq (env : CryptoEnv) (f : ApiFaults) (opts : Options)
    (d d' : Int) (i : Nat) (st : ServerState)
    (h : Event.sleep d' ∈ (ScheduleIteration env f opts d i st).2) : d' = d := by
  by_cases hn : env.NeedRefresh i st.storage.AuthorityCert
  · simp [ScheduleIteration, hn] at h
    exact h
  · simp [ScheduleIteration, hn] at h
    exact h

/-- Every iteration's events are the sleep, then only Kubernetes calls, then
exactly one stop-channel poll at the end. -/
theorem ScheduleIteration_events_shape (env : CryptoEnv) (f : ApiFaults) (opts : Options)
    (d : Int) (i : Nat) (st : ServerState) :
    ∃ body, (ScheduleIteration env f opts d i st).2 =
        Event.sleep d :: body ++ [Event.stopCheck] ∧
      ∀ e ∈ body, ∃ c, e = Event.kube c := by
  by_cases hn : env.NeedRefresh i st.storage.AuthorityCert
  · refine ⟨((UpdateAuthorityCert f st.kube (env.GenerateAuthorityCert (i + 1)).CertPem
        (env.GenerateAuthorityCert (i + 1)).PriPem opts.Namespace).2 ++
        (UpdateAuthorityPublicKey f
          (UpdateAuthorityCert f st.kube (env.GenerateAuthorityCert (i + 1)).CertPem
            (env.GenerateAuthorityCert (i + 1)).PriPem opts.Namespace).1
          (env.GenerateAuthorityCert (i + 1)).CertPem).2.1).map Event.kube, ?_, ?_⟩
    · simp [ScheduleIteration, hn]
    · intro e he
      rcases List.mem_map.mp he with ⟨c, _, rfl⟩
      exact ⟨c, rfl⟩
  · exact ⟨[], by simp [ScheduleIteration, hn], by simp⟩

/-- The loop exits within `fuel` iterations starting at index `i` exactly
when a stop signal is pending at one of those iterations' polls. -/
theorem ScheduleLoop_exits_iff (env : CryptoEnv) (f : ApiFaults) (opts : Options)
    (stop : Nat → Bool) (d : Int) :
    ∀ (fuel i : Nat) (st : ServerState),
      (ScheduleLoop env f opts stop d fuel i st).2.2 = true ↔
        ∃ j, j < fuel ∧ stop (i + j) = true := by
  intro fuel
  induction fuel with
  | zero => intro i st; simp [ScheduleLoop]
  | succ fuel ih =>
      intro i st
      by_cases hs : stop i
      · have hL : (ScheduleLoop env f opts stop d (fuel + 1) i st).2.2 = true := by
          simp [ScheduleLoop, hs]
        rw [hL]
        exact iff_of_true rfl ⟨0, Nat.succ_pos _, by simpa using hs⟩
      · have hL : (ScheduleLoop env f opts stop d (fuel + 1) i st).2.2 =
            (ScheduleLoop env f opts stop d fuel (i + 1)
              (ScheduleIteration env f opts d i st).1).2.2 := by
          simp [ScheduleLoop, hs]
        rw [hL, ih]
        constructor
        · rintro ⟨j, hj, hsj⟩
          exact ⟨j + 1, by omega, by rw [show i + (j + 1) = i + 1 + j by omega]; exact hsj⟩
        · rintro ⟨j, hj, hsj⟩
          rcases j with _ | j
          · rw [Nat.add_zero] at hsj
            exact absurd hsj (by simpa using hs)
          · exact ⟨j, by omega, by rw [show i + 1 + j = i + (j + 1) by omega]; exact hsj⟩

/-- Every sleep event of a whole loop run carries the interval the loop was
started with. -/
theorem ScheduleLoop_sleep_eq (env : CryptoEnv) (f : ApiFaults) (opts : Options)
    (stop : Nat → Bool) (d d' : Int) :
    ∀ (fuel i : Nat) (st : ServerState),
      Event.sleep d' ∈ (ScheduleLoop env f opts stop d fuel i st).2.1 → d' = d := by
  intro fuel
  induction fuel with
  | zero => intro i st h; simp [ScheduleLoop] at h
  | succ fuel ih =>
      intro i st h
      by_cases hs : stop i
      · exact ScheduleIteration_sleep_eq env f opts d d' i st
          (by simpa [ScheduleLoop, hs] using h)
      · rcases (by simpa [ScheduleLoop, hs] using h :
            Event.sleep d' ∈ (ScheduleIteration env f opts d i st).2 ∨
              Event.sleep d' ∈ (ScheduleLoop env f opts stop d fuel (i + 1)
                (ScheduleIteration env f opts d i st).1).2.1) with h' | h'
        · exact ScheduleIteration_sleep_eq env f opts d d' i st h'
        · exact ih (i + 1) _ h'

/-- C6: the poll interval computed from validity `v` equals
`min(floor(v / 100), 10000)`; in particular 500000 gives 5000 and 2000000
gives 10000; and it is computed once at loop start — every sleep event of a
scheduled-refresh run carries that same value. -/
theorem schedule_interval_formula :
    (∀ v : Nat, interval v = ((min (v / 100) 10000 : Nat) : Int))
    ∧ interval 500000 = 5000 ∧ interval 2000000 = 10000
    ∧ (∀ (env : CryptoEnv) (f : ApiFaults) (opts : Options) (stop : Nat → Bool)
        (fuel : Nat) (st : ServerState) (d' : Int),
        Event.sleep d' ∈ (ScheduleRefreshAuthorityCert env f opts stop fuel st).2.1 →
        d' = interval opts.CaValidity) := by
  have hform : ∀ v : Nat, interval v = ((min (v / 100) 10000 : Nat) : Int) := by
    intro v
    have h : ((100 : ℚ)) = ((100 : ℕ) : ℚ) := by norm_num
    rw [interval, h, Rat.floor_natCast_div_natCast, ← Int.natCast_div]
    simp [Nat.cast_min]
  refine ⟨hform, by rw [hform 500000]; norm_num, by rw [hform 2000000]; norm_num, ?_⟩
  intro env f opts stop fuel st d' h
  exact ScheduleLoop_sleep_eq env f opts stop (interval opts.CaValidity) d' fuel 0 st h

theorem schedule_interval_formula_witness :
    interval 500000 = 5000 ∧ interval 2000000 = 10000 :=
  ⟨schedule_interval_formula.2.1, schedule_interval_formula.2.2.1⟩

/-- C8: the scheduled loop exits exactly when a pending stop signal is
observed at one of the per-iteration polls, and each iteration's event trace
is the sleep, then the refresh body's Kubernetes calls, then one final
stop-channel poll — the signal is never examined during the sleep or the
refresh check, so an iteration always completes both before the loop can
exit. -/
theorem ScheduleRefresh_termination :
    (∀ (env : CryptoEnv) (f : ApiFaults) (opts : Options) (stop : Nat → Bool)
        (fuel : Nat) (st : ServerState),
        (ScheduleRefreshAuthorityCert env f opts stop fuel st).2.2 = true ↔
          ∃ j, j < fuel ∧ stop j = true)
    ∧ (∀ (env : CryptoEnv) (f : ApiFaults) (opts : Options) (d : Int) (i : Nat)
        (st : ServerState), ∃ body,
        (ScheduleIteration env f opts d i st).2 =
          Event.sleep d :: body ++ [Event.stopCheck] ∧
        ∀ e ∈ body, ∃ c, e = Event.kube c) := by
  constructor
  · intro env f opts stop fuel st
    simpa using ScheduleLoop_exits_iff env f opts stop (interval opts.CaValidity) fuel 0 st
  · intro env f opts d i st
    exact ScheduleIteration_events_shape env f opts d i st

theorem ScheduleRefresh_termination_witness :
    (ScheduleRefreshAuthorityCert envNoRef noFaults opts0 (fun _ => true) 1 st0).2.2 = true :=
  (ScheduleRefresh_termination.1 envNoRef noFaults opts0 (fun _ => true) 1 st0).mpr
    ⟨0, Nat.one_pos, rfl⟩

end DubboAdmin
